import Mathlib

/-
  Verification of the react-update repository (src/index.js): a shorthand,
  path-addressed immutable-update helper built on the external
  immutability-helper applier, with an optional React state-binding layer.

  The JavaScript source is shallowly embedded: JS values become the
  inductive `Value`, JS objects become association lists in insertion
  order, fallible JS code (thrown TypeErrors, applier failures) returns
  `Except Err`, and the in-place mutations the source performs on path
  arrays and on the last-state object are embedded by explicit state
  passing (functions return the post-call contents of the mutated object
  alongside their result).
-/

namespace ReactUpdate

/-- A JavaScript value, as far as this library observes it: null, undefined,
numbers (the library only ever branches on integer-like uses), strings,
arrays and plain objects.  Plain objects are association lists of string
keys in insertion order, matching JS object key enumeration. -/
inductive Value where
  | vnull
  | vundefined
  | num (n : Int)
  | str (s : String)
  | arr (elems : List Value)
  | obj (fields : List (String × Value))

/-- A JS plain object: string keys to values, in insertion order. -/
abbrev Obj := List (String × Value)

/-- Synchronous failures surfaced to the caller. -/
inductive Err where
  /-- Unknown operation tag: the lookup of the command builder yields
  undefined and calling it throws. -/
  | invalidOperation
  /-- Calling an array method such as shift on a non-array path. -/
  | typeError
  /-- A failure raised by the external deep-patch applier itself. -/
  | applierError
deriving DecidableEq

/-- A primitive patch command, exactly the three shapes that the source's
command builders produce for immutability-helper. -/
inductive Cmd where
  /-- The object literal with key dollar-set and the raw payload. -/
  | cset (v : Value)
  /-- The object literal with key dollar-push and a payload list. -/
  | cpush (vs : List Value)
  /-- The object literal with key dollar-splice and a list of argument
  tuples, each a (start, deleteCount) pair handed to Array.prototype.splice. -/
  | csplice (pairs : List (Value × Value))

/-- A command tree handed to the external applier: either a primitive
command at the root, or a single-key object node descending one level. -/
inductive Tree where
  | leaf (c : Cmd)
  | node (key : String) (sub : Tree)

/-- First binding of a key in an object, i.e. JS property read (JS objects
have unique keys, so first match is the binding). -/
def lookup : Obj → String → Option Value
  | [], _ => none
  | (k', v') :: rest, k => if k' = k then some v' else lookup rest k

/-- JS property read where a missing key reads as undefined. -/
def lookupD (o : Obj) (k : String) : Value :=
  (lookup o k).getD .vundefined

/-- JS property assignment: replace the binding in place when the key
exists (keeping its position), otherwise append the new key at the end,
matching JS object insertion-order semantics. -/
def setKey : Obj → String → Value → Obj
  | [], k, v => [(k, v)]
  | (k', v') :: rest, k, v =>
      if k' = k then (k, v) :: rest else (k', v') :: setKey rest k v

/-- The JS `in` operator on a plain object. -/
def hasKey (o : Obj) (k : String) : Bool :=
  o.any (fun p => p.1 == k)

/-- Object.assign(target, source): assign every binding of the source into
the target, in source insertion order. -/
def objAssign (target source : Obj) : Obj :=
  source.foldl (fun acc kv => setKey acc kv.1 kv.2) target

/-- JS string conversion of a value used in a property-key position
(for example obj[k] where k is not itself a string). -/
def keyStr : Value → String
  | .str s => s
  | .vundefined => "undefined"
  | .vnull => "null"
  | .num n => toString n
  | .arr _ => ""
  | .obj _ => "[object Object]"

/-- JS truthiness, for the branches the source takes on a path value. -/
def truthy : Value → Bool
  | .vnull => false
  | .vundefined => false
  | .num n => n ≠ 0
  | .str s => s ≠ ""
  | .arr _ => true
  | .obj _ => true

/-- Whether a value is JS null (the only falsy shape a destructured
remaining path can have, tested by the source with a bang). -/
def isNullV : Value → Bool
  | .vnull => true
  | _ => false

/-- JS ToInteger conversion as used by Array.prototype.splice arguments;
the library only ever passes numbers here, and every non-numeric value the
conversion sends to zero. -/
def toIntegerOrZero : Value → Int
  | .num n => n
  | _ => 0

/-- Array.prototype.splice(start, deleteCount) restricted to removal (no
insertions), with the ECMAScript clamping rules: a negative start counts
from the end, a start beyond the end removes nothing. -/
def jsSplice (xs : List Value) (start deleteCount : Int) : List Value :=
  let len : Int := xs.length
  let s : Nat := (if start < 0 then max (len + start) 0 else min start len).toNat
  let d : Nat := (max 0 (min deleteCount (len - (s : Int)))).toNat
  xs.take s ++ xs.drop (s + d)

/-- Apply a list of splice argument tuples in order, as immutability-helper
does for the dollar-splice command. -/
def applySpliceList (xs : List Value) (pairs : List (Value × Value)) : List Value :=
  pairs.foldl (fun acc p => jsSplice acc (toIntegerOrZero p.1) (toIntegerOrZero p.2)) xs

/-- Modelled from the spec: the primitive commands of the external
deep-patch applier (section 6: replace-whole-value, append-to-sequence and
remove-at-index, the immutability-helper dollar-set, dollar-push and
dollar-splice commands).  Replace returns the payload; append and splice
demand a sequence target and fail otherwise, as the applier throws there. -/
def applyCommand (source : Value) : Cmd → Except Err Value
  | .cset v => .ok v
  | .cpush vs =>
      match source with
      | .arr xs => .ok (.arr (xs ++ vs))
      | _ => .error .applierError
  | .csplice pairs =>
      match source with
      | .arr xs => .ok (.arr (applySpliceList xs pairs))
      | _ => .error .applierError

/-- Modelled from the spec: the external deep-patch applier (section 6),
the default export of immutability-helper.  A node command descends into
the named key of an object source (a missing key reads as undefined) and
rebuilds the object with only that binding replaced; descending into a
non-object fails, as the applier throws there. -/
def immutabilityUpdate (source : Value) : Tree → Except Err Value
  | .leaf c => applyCommand source c
  | .node k sub =>
      match source with
      | .obj fields =>
          match immutabilityUpdate (lookupD fields k) sub with
          | .ok nv => .ok (.obj (setKey fields k nv))
          | .error e => .error e
      | _ => .error .applierError

namespace commands

/-- commands.set from the source: the dollar-set command with the raw value. -/
def set (value : Value) : Cmd := .cset value

/-- commands.push from the source: the dollar-push command with a
single-element payload list. -/
def push (value : Value) : Cmd := .cpush [value]

/-- commands.splice from the source: the dollar-splice command with the
single argument tuple (value, 1), handed verbatim to Array.prototype.splice. -/
def splice (value : Value) : Cmd := .csplice [(value, .num 1)]

end commands

namespace updateHelper

/-- updateHelper.getImmutabilitySugarCommand: look the operation tag up in
the commands table and call the builder; an unknown tag finds undefined
and the call throws, surfaced synchronously as InvalidOperation. -/
def getImmutabilitySugarCommand (type : String) (value : Value) : Except Err Cmd :=
  if type == "set" then .ok (commands.set value)
  else if type == "push" then .ok (commands.push value)
  else if type == "splice" then .ok (commands.splice value)
  else .error .invalidOperation

/-- updateHelper.getNestedData: wrap a leaf command in one object level per
path key.  The source mutates an array path in place with pop (removing
its last element) before iterating the remaining keys from the outside in;
the second component is the post-call contents of that array object.  A
falsy path (null, undefined) returns the command itself; a truthy
non-array path acts as the single last key; for an empty array, pop
returns undefined and the key used is the string "undefined". -/
def getNestedData (path : Value) (value : Tree) : Tree × Value :=
  if truthy path then
    match path with
    | .arr ks =>
        let lastKey := match ks.getLast? with
          | some k => keyStr k
          | none => "undefined"
        (ks.dropLast.foldr (fun k t => Tree.node (keyStr k) t) (Tree.node lastKey value),
         .arr ks.dropLast)
    | p => (Tree.node (keyStr p) value, p)
  else (value, path)

/-- updateHelper.getImmutabilitySugar: build the leaf command, then nest it
along the path.  The command lookup runs first, so an unknown tag fails
before the path array is touched. -/
def getImmutabilitySugar (type : String) (path : Value) (value : Value) :
    Except Err (Tree × Value) :=
  match getImmutabilitySugarCommand type value with
  | .ok c => .ok (getNestedData path (.leaf c))
  | .error e => .error e

/-- updateHelper.update: build the sugar and hand source and command tree
to the external applier.  Alongside the new value, the second component
is the post-call contents of the path array object. -/
def update (source : Value) (type : String) (path : Value) (value : Value) :
    Except Err (Value × Value) :=
  match getImmutabilitySugar type path value with
  | .ok (sugar, pathAfter) =>
      match immutabilityUpdate source sugar with
      | .ok nv => .ok (nv, pathAfter)
      | .error e => .error e
  | .error e => .error e

end updateHelper

/-- isPlainObject from the source: Object.prototype.toString tagging is
the object tag exactly for plain objects, not arrays, strings, numbers or
null. -/
def isPlainObject : Value → Bool
  | .obj _ => true
  | _ => false

/-- The delimiter set of the source's split regex: the dot and the two
square brackets. -/
def isDelim (c : Char) : Bool := c = '.' || c = '[' || c = ']'

/-- Split a character list at every delimiter character, keeping empty
tokens, exactly as the JS split with the regex alternation of the three
delimiter characters does.  Written with an accumulator, as split
implementations are. -/
def splitAux : List Char → List Char → List String
  | [], acc => [String.mk acc.reverse]
  | c :: cs, acc =>
      if isDelim c then String.mk acc.reverse :: splitAux cs []
      else splitAux cs (c :: acc)

/-- The source's path tokenizer: split the string on the dot and bracket
delimiters (empty tokens included at this stage). -/
def splitDelims (s : String) : List String :=
  splitAux s.data []

/-- getPathArray from the source: a string path is split on the delimiter
set and the empty tokens are dropped (the filter keeps truthy elements,
and the only falsy string is the empty one); every non-string path is
returned unchanged, including null and undefined. -/
def getPathArray (path : Value) : Value :=
  match path with
  | .str s => .arr (((splitDelims s).filter (fun t => t ≠ "")).map .str)
  | p => p

/-- getDestructPath from the source: normalize the path, then shift off
the first element as the prop (shift on an empty array yields undefined,
which stringifies to "undefined" in every key position the prop is used
in), and return null in place of an emptied remaining path.  The remaining
path aliases the caller's (now shifted) array.  Shifting a non-array,
non-string path throws. -/
def getDestructPath (path : Value) : Except Err (String × Value) :=
  match getPathArray path with
  | .arr [] => .ok (keyStr .vundefined, .vnull)
  | .arr (k :: rest) => .ok (keyStr k, if rest.isEmpty then .vnull else .arr rest)
  | _ => .error .typeError

/-- A stateful host object (a React component instance) as this library
observes it: the committed state, the pending-state queue of the host's
framework (null when absent), and the last-state cache slot the library
stamps onto the instance (absent when deleted). -/
structure Instance where
  state : Obj
  pendingQueue : Option (List Obj)
  lastStateCache : Option Obj

/-- Modelled from the spec: the host state container's commit capability
(section 6), which schedules the fragment by appending it to the host's
pending-state queue, creating the queue when absent; the framework merges
queued fragments into the committed state only later in the tick. -/
def setState (inst : Instance) (fragment : Obj) : Instance :=
  { inst with pendingQueue := some ((inst.pendingQueue.getD []) ++ [fragment]) }

/-- getCachedLastState from the source: when a pending-state queue exists,
pop its last fragment and merge it into the cache slot (seeding the cache
with a copy of the committed state merged with the fragment when the slot
is empty), and return the cache; when no queue exists, delete the cache
slot and return undefined.  Pop on an empty queue yields undefined, which
Object.assign ignores. -/
def getCachedLastState (inst : Instance) : Option Obj × Instance :=
  match inst.pendingQueue with
  | some queue =>
      let popped := (queue.getLast?).getD []
      let rest := queue.dropLast
      let cache :=
        match inst.lastStateCache with
        | some c => objAssign c popped
        | none => objAssign (objAssign ([] : Obj) inst.state) popped
      (some cache, { inst with pendingQueue := some rest, lastStateCache := some cache })
  | none => (none, { inst with lastStateCache := none })

/-- The single-path branch of the inner updateNextState closure: destruct
the path into prop and remaining path; with no remaining path and the set
operation, assign the raw value into the result fragment directly;
otherwise, when the prop was already written in this call, first write
that partial result back into the last state, then apply the helper to
the prop's last value.  The third component is the post-call contents of
the caller's path array (shift removes its first element, and the helper's
pop then removes the last element of the aliased remainder); a non-array
path is not mutated. -/
def updateNextStateSingle (type : String) (path value : Value) (ns ls : Obj) :
    Except Err (Obj × Obj × Value) :=
  match getDestructPath path with
  | .error e => .error e
  | .ok (prop, remainPath) =>
      let shifted : Value := match path with
        | .arr ks => .arr ks.tail
        | p => p
      if isNullV remainPath && type == "set" then
        .ok (setKey ns prop value, ls, shifted)
      else
        let ls2 := if hasKey ns prop then setKey ls prop (lookupD ns prop) else ls
        match updateHelper.update (lookupD ls2 prop) type remainPath value with
        | .ok (nv, remainAfter) =>
            let pa : Value := match path, remainPath with
              | .arr _, .arr _ => remainAfter
              | _, _ => shifted
            .ok (setKey ns prop nv, ls2, pa)
        | .error e => .error e

/-- The multi-prop iteration of updateNextState: one recursive call per
key of the path object, in insertion order, threading the result fragment
and the last state through.  Each recursive call receives the key, a
string, as its path, so it always takes the single-path branch
(isPlainObject of a string is false); the associated value is passed as
the update value and its shape is never examined. -/
def updateNextStateList (type : String) :
    List (String × Value) → Obj → Obj → Except Err (Obj × Obj)
  | [], ns, ls => .ok (ns, ls)
  | (k, v) :: rest, ns, ls =>
      match updateNextStateSingle type (.str k) v ns ls with
      | .ok (ns2, ls2, _) => updateNextStateList type rest ns2 ls2
      | .error e => .error e

/-- The inner updateNextState closure of updateState: a plain-object path
is treated as one update per key; any other path is a single update. -/
def updateNextState (type : String) (path value : Value) (ns ls : Obj) :
    Except Err (Obj × Obj × Value) :=
  if isPlainObject path then
    match path with
    | .obj entries =>
        match updateNextStateList type entries ns ls with
        | .ok (ns2, ls2) => .ok (ns2, ls2, path)
        | .error e => .error e
    | _ => .error .typeError
  else updateNextStateSingle type path value ns ls

/-- updateState from the source, the bound update: consult the pending
state cache, falling back to the committed state (the empty-object cache
is truthy, so the fallback fires only when the cache is absent); run the
inner updateNextState; commit the accumulated fragment via setState; and
return the single new value when exactly one prop was updated, the whole
fragment otherwise.  The working last state aliases either the cache slot
or the committed state, so its in-call mutations are written back to
whichever of the two it aliased; the third result component is the
post-call contents of the caller's path array. -/
def updateState (inst : Instance) (type : String) (path value : Value) :
    Except Err (Value × Instance × Value) :=
  let r := getCachedLastState inst
  let lastState := r.1.getD r.2.state
  match updateNextState type path value [] lastState with
  | .ok (nextState, lastState2, pathAfter) =>
      let inst2 :=
        match r.1 with
        | some _ => { r.2 with lastStateCache := some lastState2 }
        | none => { r.2 with state := lastState2 }
      let inst3 := setState inst2 nextState
      let ret : Value :=
        match nextState with
        | [kv] => kv.2
        | _ => .obj nextState
      .ok (ret, inst3, pathAfter)
  | .error e => .error e

/-- updateSilent from the source, the pure (free) update: normalize the
path and delegate to updateHelper.update on the given source value.  The
second component is the post-call contents of the path array object (for
an array argument this is the caller's own array, which the helper's pop
mutates; a string argument is split into a fresh array and the caller
observes no mutation). -/
def updateSilent (source : Value) (type : String) (path value : Value) :
    Except Err (Value × Value) :=
  updateHelper.update source type (getPathArray path) value

/-
  Observation vocabulary for stating properties: reading and functionally
  replacing the value at a resolved path (the spec's notion of the tree
  position a path addresses), used only in theorem statements.
-/

/-- The value of a tree-shaped value at a resolved path: descend one
object key per path element.  None when the path runs into a non-object
or a missing key. -/
def pathGet : Value → List String → Option Value
  | v, [] => some v
  | .obj fields, k :: ks =>
      match lookup fields k with
      | some v => pathGet v ks
      | none => none
  | _, _ :: _ => none

/-- Functional replacement of the value at a resolved path, rebuilding
each object along the path with the one binding replaced (the shape the
external applier produces). -/
def pathSetF : Value → List String → Value → Value
  | _, [], w => w
  | .obj fields, k :: ks, w => .obj (setKey fields k (pathSetF (lookupD fields k) ks w))
  | v, _ :: _, _ => v

/-
  Helper lemmas about the object primitives and the tokenizer.
-/

theorem lookup_setKey_self (o : Obj) (k : String) (v : Value) :
    lookup (setKey o k v) k = some v := by
  induction o with
  | nil => simp [setKey, lookup]
  | cons kv rest ih =>
      obtain ⟨k', v'⟩ := kv
      by_cases h : k' = k
      · simp [setKey, h, lookup]
      · simp [setKey, h, lookup, ih]

theorem lookup_setKey_ne (o : Obj) (k k' : String) (v : Value) (h : k' ≠ k) :
    lookup (setKey o k v) k' = lookup o k' := by
  have h2 : ¬ k = k' := fun hk => h hk.symm
  induction o with
  | nil => simp [setKey, lookup, h2]
  | cons kv rest ih =>
      obtain ⟨k0, v0⟩ := kv
      by_cases h0 : k0 = k
      · subst h0
        simp [setKey, lookup, h, h2]
      · by_cases h1 : k0 = k'
        · subst h1
          simp [setKey, h0, lookup]
        · simp [setKey, h0, lookup, h1, ih]

theorem lookupD_setKey_self (o : Obj) (k : String) (v : Value) :
    lookupD (setKey o k v) k = v := by
  simp [lookupD, lookup_setKey_self]

/-- Folding property assignments over entries whose keys avoid k leaves
the binding of k unchanged. -/
theorem lookup_foldl_setKey_not_mem (es : List (String × Value)) (a : Obj) (k : String)
    (h : k ∉ es.map Prod.fst) :
    lookup (es.foldl (fun acc kv => setKey acc kv.1 kv.2) a) k = lookup a k := by
  induction es generalizing a with
  | nil => rfl
  | cons kv rest ih =>
      simp only [List.map_cons, List.mem_cons] at h
      push_neg at h
      simp only [List.foldl_cons]
      rw [ih _ h.2, lookup_setKey_ne _ _ _ _ (fun hk => h.1 hk)]

/-- With pairwise distinct keys, every entry of the fold is retrievable. -/
theorem lookup_foldl_setKey_mem (es : List (String × Value)) (a : Obj) (k : String) (v : Value)
    (hnd : (es.map Prod.fst).Nodup) (hmem : (k, v) ∈ es) :
    lookup (es.foldl (fun acc kv => setKey acc kv.1 kv.2) a) k = some v := by
  induction es generalizing a with
  | nil => cases hmem
  | cons kv rest ih =>
      simp only [List.map_cons, List.nodup_cons] at hnd
      rcases List.mem_cons.mp hmem with h | h
      · subst h
        simp only [List.foldl_cons]
        rw [lookup_foldl_setKey_not_mem _ _ _ hnd.1, lookup_setKey_self]
      · exact ih _ hnd.2 h

theorem splitAux_eq_splitOnP (cs : List Char) (acc : List Char) :
    splitAux cs acc
      = ((cs.splitOnP isDelim).modifyHead (fun t => acc.reverse ++ t)).map String.mk := by
  induction cs generalizing acc with
  | nil => simp [splitAux, List.splitOnP_nil]
  | cons c rest ih =>
      obtain ⟨t, ts, hrest⟩ : ∃ t ts, rest.splitOnP isDelim = t :: ts := by
        cases h : rest.splitOnP isDelim with
        | nil => exact absurd h (List.splitOnP_ne_nil _ rest)
        | cons t ts => exact ⟨t, ts, rfl⟩
      simp only [splitAux, List.splitOnP_cons]
      by_cases hd : isDelim c = true
      · rw [if_pos hd, if_pos hd, ih [], hrest]
        simp [List.modifyHead]
      · rw [if_neg hd, if_neg hd, ih (c :: acc), hrest]
        simp [List.modifyHead]

/-- The source tokenizer agrees with the mathematical split-on-predicate:
tokens are the (possibly empty) runs between delimiter characters, in
order. -/
theorem splitDelims_eq (s : String) :
    splitDelims s = (s.data.splitOnP isDelim).map String.mk := by
  rw [splitDelims, splitAux_eq_splitOnP]
  have hne := List.splitOnP_ne_nil (p := isDelim) s.data
  cases h : s.data.splitOnP isDelim with
  | nil => exact absurd h hne
  | cons t ts => simp [List.modifyHead]

/-- For a nonempty path of string keys, getNestedData builds exactly the
outermost-in single-key nesting of the leaf, and pop leaves the array
without its last element. -/
theorem getNestedData_strPath (ks : List String) (t : Tree) (hne : ks ≠ []) :
    updateHelper.getNestedData (.arr (ks.map .str)) t
      = (ks.foldr (fun k tr => Tree.node k tr) t, .arr ((ks.dropLast).map .str)) := by
  induction ks using List.reverseRecOn with
  | nil => exact absurd rfl hne
  | append_singleton init last _ =>
      simp only [updateHelper.getNestedData, truthy, List.map_append, List.map_cons,
        List.map_nil, List.getLast?_concat, List.dropLast_concat, keyStr,
        List.foldr_append, List.foldr_cons, List.foldr_nil, List.foldr_map, if_true]

/-- Descent of the external applier along a nested single-key command
tree: when the path addresses an existing position, the applier replaces
exactly that position with the result of the leaf command, rebuilding the
objects along the path. -/
theorem immutabilityUpdate_nest (ks : List String) (S tgt : Value) (c : Cmd) (w : Value)
    (hget : pathGet S ks = some tgt) (happ : applyCommand tgt c = .ok w) :
    immutabilityUpdate S (ks.foldr (fun k tr => Tree.node k tr) (.leaf c))
      = .ok (pathSetF S ks w) := by
  induction ks generalizing S with
  | nil =>
      simp only [pathGet, Option.some.injEq] at hget
      subst hget
      simpa [immutabilityUpdate, pathSetF] using happ
  | cons k ks ih =>
      cases S with
      | obj fields =>
          simp only [pathGet] at hget
          cases hl : lookup fields k with
          | none => rw [hl] at hget; cases hget
          | some v =>
              rw [hl] at hget
              have hv := ih v hget
              simp only [List.foldr_cons, immutabilityUpdate, lookupD, hl, Option.getD_some,
                hv, pathSetF]
      | vnull => cases hget
      | vundefined => cases hget
      | num n => cases hget
      | str s => cases hget
      | arr xs => cases hget

/-- Splice with arguments (n, 1) for a natural n is removal of the element
at index n, and the identity when n is out of range. -/
theorem jsSplice_one (xs : List Value) (n : Nat) :
    jsSplice xs (n : Int) 1
      = if n < xs.length then xs.take n ++ xs.drop (n + 1) else xs := by
  simp only [jsSplice]
  rw [if_neg (by omega : ¬ (n : Int) < 0)]
  by_cases h : n < xs.length
  · have hmin : min (n : Int) (xs.length : Int) = (n : Int) :=
      min_eq_left (by exact_mod_cast Nat.le_of_lt h)
    have hs : ((min (n : Int) (xs.length : Int)).toNat) = n := by rw [hmin]; simp
    rw [hs]
    have h1 : min (1 : Int) ((xs.length : Int) - (n : Int)) = 1 :=
      min_eq_left (by omega)
    rw [h1]
    norm_num [h]
  · have hmin : min (n : Int) (xs.length : Int) = (xs.length : Int) :=
      min_eq_right (by exact_mod_cast Nat.le_of_not_lt h)
    have hs : ((min (n : Int) (xs.length : Int)).toNat) = xs.length := by rw [hmin]; simp
    rw [hs]
    have h1 : min (1 : Int) ((xs.length : Int) - (xs.length : Int)) = 0 := by
      rw [min_eq_right] <;> omega
    rw [h1]
    norm_num [h, List.take_length, List.drop_length]

/-
  Claim C1.
-/

/-- C1 (counterexample): the claim says a splice update removes the first
occurrence of the value V from the addressed sequence.  On the concrete
sequence [10, 20] with V = 20, the code hands 20 to Array.prototype.splice
as the start index, which is past the end, so nothing is removed: the
result is [10, 20], not [10] as first-occurrence removal would give. -/
theorem c1_counterexample :
    updateSilent (.arr [.num 10, .num 20]) "splice" .vnull (.num 20)
        = .ok (.arr [.num 10, .num 20], .vnull)
    ∧ Value.arr [.num 10, .num 20] ≠ .arr [.num 10] := by
  exact ⟨rfl, by simp⟩

/-- C1 (amended): for a source S whose value at the resolved path P is a
sequence, freeUpdate(S, 'splice', P, V) with a natural number V treats V
as an index: it returns S with the single element at index V removed from
that sequence when V is within range, and with the sequence unchanged when
V is at or beyond its length; the same holds at the root for an absent
path.  Removal by value equality never occurs. -/
theorem c1_amended (S : Value) (ks : List String) (xs : List Value) (n : Nat)
    (hget : pathGet S ks = some (.arr xs)) (hne : ks ≠ []) :
    (updateSilent S "splice" (.arr (ks.map .str)) (.num n)).map Prod.fst
      = .ok (pathSetF S ks
          (.arr (if n < xs.length then xs.take n ++ xs.drop (n + 1) else xs)))
    ∧ ∀ (ys : List Value) (m : Nat),
        (updateSilent (.arr ys) "splice" .vnull (.num m)).map Prod.fst
          = .ok (.arr (if m < ys.length then ys.take m ++ ys.drop (m + 1) else ys)) := by
  have key : ∀ (zs : List Value) (m : Nat),
      applyCommand (.arr zs) (commands.splice (.num m))
        = .ok (.arr (if m < zs.length then zs.take m ++ zs.drop (m + 1) else zs)) := by
    intro zs m
    simp [applyCommand, commands.splice, applySpliceList, toIntegerOrZero, jsSplice_one]
  constructor
  · have hnest := getNestedData_strPath ks (.leaf (commands.splice (.num n))) hne
    have happ := immutabilityUpdate_nest ks S (.arr xs) (commands.splice (.num n)) _
      hget (key xs n)
    simp [updateSilent, getPathArray, updateHelper.update, updateHelper.getImmutabilitySugar,
      updateHelper.getImmutabilitySugarCommand, hnest, happ, Except.map]
  · intro ys m
    have h := key ys m
    simp [updateSilent, getPathArray, updateHelper.update, updateHelper.getImmutabilitySugar,
      updateHelper.getImmutabilitySugarCommand, updateHelper.getNestedData, truthy,
      immutabilityUpdate, h, Except.map]

/-- C1 (witness): the amended claim at a concrete input: removing index 0
from the sequence [7, 8] stored under key l. -/
theorem c1_amended_witness :
    (updateSilent (.obj [("l", .arr [.num 7, .num 8])]) "splice"
        (.arr [.str "l"]) (.num 0)).map Prod.fst
      = .ok (.obj [("l", .arr [.num 8])]) := by
  have h := (c1_amended (.obj [("l", .arr [.num 7, .num 8])]) ["l"] [.num 7, .num 8] 0
    rfl (by simp)).1
  simpa using h

/-
  Claim C5.
-/

/-- C5 (counterexample): the claim says that for an empty path the
primitive leaf command itself is the constructed tree.  For the empty
sequence path, the source's pop returns undefined and the tree is a
single-key nesting under the key "undefined", not the leaf command. -/
theorem c5_counterexample :
    (updateHelper.getNestedData (.arr []) (.leaf (commands.set (.num 1)))).1
        = .node "undefined" (.leaf (.cset (.num 1)))
    ∧ (updateHelper.getNestedData (.arr []) (.leaf (commands.set (.num 1)))).1
        ≠ .leaf (.cset (.num 1)) := by
  refine ⟨rfl, ?_⟩
  simp [updateHelper.getNestedData, truthy, commands.set]

/-- C5 (amended): for a resolved path with keys k0..kn the constructed
command tree is exactly the single-key nesting of the leaf command with
one level per key, outermost key first; for an absent (null or undefined)
path the leaf command itself is the tree; for an empty sequence path the
tree is one level of nesting under the key "undefined". -/
theorem c5_amended (c : Cmd) (ks : List String) (hne : ks ≠ []) :
    (updateHelper.getNestedData (.arr (ks.map .str)) (.leaf c)).1
        = ks.foldr (fun k tr => Tree.node k tr) (.leaf c)
    ∧ (updateHelper.getNestedData .vnull (.leaf c)).1 = .leaf c
    ∧ (updateHelper.getNestedData .vundefined (.leaf c)).1 = .leaf c
    ∧ (updateHelper.getNestedData (.arr []) (.leaf c)).1
        = .node "undefined" (.leaf c) := by
  refine ⟨?_, rfl, rfl, rfl⟩
  rw [getNestedData_strPath ks (.leaf c) hne]

/-- C5 (witness): the amended claim at the concrete two-key path a.b. -/
theorem c5_amended_witness :
    (updateHelper.getNestedData (.arr [.str "a", .str "b"])
        (.leaf (commands.set (.num 1)))).1
      = .node "a" (.node "b" (.leaf (commands.set (.num 1)))) := by
  have h := (c5_amended (commands.set (.num 1)) ["a", "b"] (by simp)).1
  simpa using h

/-
  Claim C6.
-/

/-- C6 (counterexample): the claim says normalize of an absent or null
path returns an empty sequence of keys; the source's getPathArray returns
a non-string path unchanged, so null comes back as null, which is not the
empty sequence. -/
theorem c6_counterexample :
    getPathArray .vnull = .vnull ∧ Value.vnull ≠ .arr [] := by
  exact ⟨rfl, by simp⟩

/-- C6 (amended): normalize applied to a string returns exactly the runs
of non-delimiter characters split on the dot and bracket delimiters, with
empty tokens dropped and order preserved; applied to a sequence it returns
the sequence unchanged; applied to null or undefined (or any non-string
value) it returns the value itself unchanged, not an empty sequence. -/
theorem c6_amended :
    (∀ s : String,
        getPathArray (.str s)
          = .arr ((((s.data.splitOnP isDelim).map String.mk).filter
              (fun t => t ≠ "")).map .str))
    ∧ (∀ ks : List Value, getPathArray (.arr ks) = .arr ks)
    ∧ getPathArray .vnull = .vnull ∧ getPathArray .vundefined = .vundefined := by
  refine ⟨fun s => ?_, fun ks => rfl, rfl, rfl⟩
  simp [getPathArray, splitDelims_eq]

/-
  Helper lemmas for the state-binding layer.
-/

/-- An unknown operation tag fails the command lookup. -/
theorem getImmutabilitySugarCommand_unknown (type : String) (value : Value)
    (h1 : type ≠ "set") (h2 : type ≠ "push") (h3 : type ≠ "splice") :
    updateHelper.getImmutabilitySugarCommand type value = .error .invalidOperation := by
  simp [updateHelper.getImmutabilitySugarCommand, h1, h2, h3]

/-- An unknown operation tag fails updateHelper.update before the applier
or the path are consulted. -/
theorem update_unknown (source : Value) (type : String) (path value : Value)
    (h1 : type ≠ "set") (h2 : type ≠ "push") (h3 : type ≠ "splice") :
    updateHelper.update source type path value = .error .invalidOperation := by
  simp [updateHelper.update, updateHelper.getImmutabilitySugar,
    getImmutabilitySugarCommand_unknown type value h1 h2 h3]

/-- Destructuring a string path always succeeds (normalization yields an
array, whose shift is total). -/
theorem getDestructPath_str_ok (s : String) :
    ∃ prop remain, getDestructPath (.str s) = .ok (prop, remain) := by
  simp only [getDestructPath, getPathArray]
  cases ((splitDelims s).filter (fun t => t ≠ "")).map Value.str with
  | nil => exact ⟨_, _, rfl⟩
  | cons k rest => exact ⟨_, _, rfl⟩

/-- Destructuring an array path always succeeds. -/
theorem getDestructPath_arr_ok (ks : List Value) :
    ∃ prop remain, getDestructPath (.arr ks) = .ok (prop, remain) := by
  cases ks with
  | nil => exact ⟨_, _, rfl⟩
  | cons k rest => exact ⟨_, _, rfl⟩

/-- With an unknown operation tag, a successfully destructured single
update always takes the general branch and fails with InvalidOperation. -/
theorem updateNextStateSingle_unknown (type : String) (path value : Value) (ns ls : Obj)
    (prop : String) (remain : Value)
    (hd : getDestructPath path = .ok (prop, remain))
    (h1 : type ≠ "set") (h2 : type ≠ "push") (h3 : type ≠ "splice") :
    updateNextStateSingle type path value ns ls = .error .invalidOperation := by
  have hbeq : (type == "set") = false := by
    simp [h1]
  simp [updateNextStateSingle, hd, hbeq,
    update_unknown _ type _ value h1 h2 h3]

/-- A single set update whose path is one plain key takes the fast branch:
the raw value is assigned into the fragment and nothing else changes. -/
theorem updateNextStateSingle_fastKey (k : String) (v : Value) (ns ls : Obj)
    (hk : getPathArray (.str k) = .arr [.str k]) :
    updateNextStateSingle "set" (.str k) v ns ls = .ok (setKey ns k v, ls, .str k) := by
  have hd : getDestructPath (.str k) = .ok (k, .vnull) := by
    simp [getDestructPath, hk, keyStr]
  simp [updateNextStateSingle, hd, isNullV]

/-- The multi-prop iteration with plain single-key set updates is the fold
of raw assignments into the fragment. -/
theorem updateNextStateList_fast (entries : List (String × Value)) (ns ls : Obj)
    (hkeys : ∀ kv ∈ entries, getPathArray (.str kv.1) = .arr [.str kv.1]) :
    updateNextStateList "set" entries ns ls
      = .ok (entries.foldl (fun acc kv => setKey acc kv.1 kv.2) ns, ls) := by
  induction entries generalizing ns with
  | nil => rfl
  | cons kv rest ih =>
      obtain ⟨k, v⟩ := kv
      have hk := hkeys (k, v) (List.mem_cons_self _ _)
      simp only [updateNextStateList, updateNextStateSingle_fastKey k v ns ls hk,
        List.foldl_cons]
      exact ih _ (fun kv h => hkeys kv (List.mem_cons_of_mem _ h))

/-- One destructured per-update step composes through the pure apply
layer: whatever branch is taken, the fragment receives the result of
applying the helper to the prop's freshest last value (in the fast branch
the helper's root-level set yields the raw value, so the two coincide). -/
theorem updateNextStateSingle_composes (type : String) (path value : Value) (ns ls : Obj)
    (prop : String) (remain : Value) (w : Value)
    (hd : getDestructPath path = .ok (prop, remain))
    (hu : (updateHelper.update
            (lookupD (if hasKey ns prop then setKey ls prop (lookupD ns prop) else ls) prop)
            type remain value).map Prod.fst = .ok w) :
    ∃ ls2 pa, updateNextStateSingle type path value ns ls = .ok (setKey ns prop w, ls2, pa) := by
  simp only [updateNextStateSingle, hd]
  by_cases hf : (isNullV remain && (type == "set")) = true
  · obtain ⟨hn, hs⟩ := Bool.and_eq_true_iff.mp hf
    have hrem : remain = .vnull := by
      cases remain <;> simp [isNullV] at hn ⊢
    have hty : type = "set" := by simpa using hs
    subst hty
    subst hrem
    have hcomp : (updateHelper.update
        (lookupD (if hasKey ns prop then setKey ls prop (lookupD ns prop) else ls) prop)
        "set" .vnull value) = .ok (value, .vnull) := rfl
    rw [hcomp] at hu
    simp only [Except.map, Except.ok.injEq] at hu
    subst hu
    rw [if_pos hf]
    exact ⟨ls, _, rfl⟩
  · rw [if_neg hf]
    cases hup : updateHelper.update
        (lookupD (if hasKey ns prop then setKey ls prop (lookupD ns prop) else ls) prop)
        type remain value with
    | error e =>
        rw [hup] at hu
        simp [Except.map] at hu
    | ok p =>
        obtain ⟨nv, ra⟩ := p
        rw [hup] at hu
        simp only [Except.map, Except.ok.injEq] at hu
        subst hu
        exact ⟨_, _, rfl⟩

/-- A successful pure helper update on an array path reports the array
contents with the last element popped off. -/
theorem update_pathAfter_arr (source : Value) (type : String) (ms : List Value)
    (value r pa : Value)
    (h : updateHelper.update source type (.arr ms) value = .ok (r, pa)) :
    pa = .arr ms.dropLast := by
  unfold updateHelper.update updateHelper.getImmutabilitySugar at h
  cases hc : updateHelper.getImmutabilitySugarCommand type value with
  | error e => rw [hc] at h; cases h
  | ok c =>
      rw [hc] at h
      simp only [updateHelper.getNestedData, truthy, if_true, ite_true] at h
      cases him : immutabilityUpdate source
          ((ms.dropLast).foldr (fun k t => Tree.node (keyStr k) t)
            (Tree.node (match ms.getLast? with
              | some k => keyStr k
              | none => "undefined") (.leaf c))) with
      | error e => rw [him] at h; cases h
      | ok nv =>
          rw [him] at h
          simp only [Except.ok.injEq, Prod.mk.injEq] at h
          exact h.2.symm

/-
  Claim C3.
-/

/-- C3 (confirmed): a bound multi-path set update on a host whose
committed state maps a, b, c to 0 with the mapping a to 1, b to 2 commits
exactly the fragment with a to 1 and b to 2 (scheduled on the pending
queue), returns exactly that mapping, and c appears in neither the
fragment nor the return value (and the committed state is untouched). -/
theorem c3_multiPathBatching :
    updateState ⟨[("a", .num 0), ("b", .num 0), ("c", .num 0)], none, none⟩ "set"
        (.obj [("a", .num 1), ("b", .num 2)]) .vundefined
      = .ok (.obj [("a", .num 1), ("b", .num 2)],
             ⟨[("a", .num 0), ("b", .num 0), ("c", .num 0)],
              some [[("a", .num 1), ("b", .num 2)]], none⟩,
             .obj [("a", .num 1), ("b", .num 2)])
    ∧ lookup [("a", .num 1), ("b", .num 2)] "c" = none := by
  exact ⟨rfl, rfl⟩

/-
  Claim C8.
-/

/-- C8 (confirmed): when the destructured per-update path has no remaining
segments and the operation is set, the bound update assigns the raw value
directly into the result fragment for that prop, leaving the last state
untouched (the external applier is never invoked on this branch), and the
general path would agree: applying the helper with a root-level set
command to any last-known value of that property returns exactly the raw
value, so the fast path and the general path produce the same fragment. -/
theorem c8_fastPathEquivalence (path value : Value) (ns ls : Obj) (prop : String)
    (h : getDestructPath path = .ok (prop, .vnull)) :
    updateNextState "set" path value ns ls
        = .ok (setKey ns prop value, ls,
               match path with
               | .arr ks => .arr ks.tail
               | p => p)
    ∧ ∀ source, updateHelper.update source "set" .vnull value = .ok (value, .vnull) := by
  refine ⟨?_, fun source => rfl⟩
  cases path with
  | obj fields => simp [getDestructPath, getPathArray] at h
  | vnull => simp [getDestructPath, getPathArray] at h
  | vundefined => simp [getDestructPath, getPathArray] at h
  | num n => simp [getDestructPath, getPathArray] at h
  | str s => simp [updateNextState, isPlainObject, updateNextStateSingle, h, isNullV]
  | arr ks => simp [updateNextState, isPlainObject, updateNextStateSingle, h, isNullV]

/-- C8 (witness): the fast path at the concrete prop a with value 5. -/
theorem c8_fastPathEquivalence_witness :
    updateNextState "set" (.str "a") (.num 5) [] [] = .ok ([("a", .num 5)], [], .str "a")
    ∧ updateHelper.update (.num 77) "set" .vnull (.num 5) = .ok (.num 5, .vnull) := by
  have h := c8_fastPathEquivalence (.str "a") (.num 5) [] [] "a" rfl
  exact ⟨by simpa using h.1, h.2 (.num 77)⟩

/-
  Claim C9.
-/

/-- C9 (counterexample): the claim says every update call with an unknown
operation tag fails with InvalidOperation.  A bound call whose path is the
empty plain mapping performs no per-path updates: with the unknown tag
frobnicate it succeeds, committing an empty fragment and returning the
empty mapping, and in particular does not fail with InvalidOperation. -/
theorem c9_counterexample :
    updateState ⟨[], none, none⟩ "frobnicate" (.obj []) .vundefined
        = .ok (.obj [], ⟨[], some [[]], none⟩, .obj [])
    ∧ updateState ⟨[], none, none⟩ "frobnicate" (.obj []) .vundefined
        ≠ .error .invalidOperation := by
  exact ⟨rfl, fun h => Except.noConfusion h⟩

/-- C9 (amended): every pure update call with an operation tag other than
set, push, splice fails synchronously with InvalidOperation (the command
lookup fails before the path or the source is consulted), and so does
every bound update call whose path is a string, a sequence, or a nonempty
plain mapping; the failure propagates to the immediate caller with no
recovery.  Only a bound call with an empty plain-mapping path performs no
per-path update and therefore returns an empty fragment without failing. -/
theorem c9_unknownOperation (type : String)
    (h1 : type ≠ "set") (h2 : type ≠ "push") (h3 : type ≠ "splice") :
    (∀ source path value,
        updateSilent source type path value = .error .invalidOperation)
    ∧ (∀ inst value s,
        updateState inst type (.str s) value = .error .invalidOperation)
    ∧ (∀ inst value ks,
        updateState inst type (.arr ks) value = .error .invalidOperation)
    ∧ (∀ inst value k v rest,
        updateState inst type (.obj ((k, v) :: rest)) value
          = .error .invalidOperation) := by
  refine ⟨fun source path value => ?_, fun inst value s => ?_,
    fun inst value ks => ?_, fun inst value k v rest => ?_⟩
  · simp [updateSilent, update_unknown _ type _ _ h1 h2 h3]
  · obtain ⟨prop, remain, hd⟩ := getDestructPath_str_ok s
    simp [updateState, updateNextState, isPlainObject,
      updateNextStateSingle_unknown type _ value _ _ prop remain hd h1 h2 h3]
  · obtain ⟨prop, remain, hd⟩ := getDestructPath_arr_ok ks
    simp [updateState, updateNextState, isPlainObject,
      updateNextStateSingle_unknown type _ value _ _ prop remain hd h1 h2 h3]
  · obtain ⟨prop, remain, hd⟩ := getDestructPath_str_ok k
    simp [updateState, updateNextState, isPlainObject, updateNextStateList,
      updateNextStateSingle_unknown type _ v _ _ prop remain hd h1 h2 h3]

/-- C9 (witness): the amended claim at the concrete unknown tag
frobnicate, for a pure call and for a bound single-path call. -/
theorem c9_unknownOperation_witness :
    updateSilent (.num 0) "frobnicate" .vnull (.num 0) = .error .invalidOperation
    ∧ updateState ⟨[], none, none⟩ "frobnicate" (.str "a") (.num 0)
        = .error .invalidOperation := by
  have h := c9_unknownOperation "frobnicate" (by decide) (by decide) (by decide)
  exact ⟨h.1 _ _ _, h.2.1 _ _ _⟩

/-
  Claim C10.
-/

/-- C10 (counterexample): the claim says that for every path passed as an
array the caller's array afterwards is no longer the array it passed in.
For the empty array, pop removes nothing: the pure update completes (the
command lands under the key "undefined") and the caller's array contents
afterwards are the empty array, exactly what was passed in. -/
theorem c10_counterexample :
    updateSilent (.obj []) "set" (.arr []) (.num 1)
      = .ok (.obj [("undefined", .num 1)], .arr []) := by
  exact rfl

/-- C10 (amended): for every nonempty path array, a completed update
mutates the caller's array in place: the pure update pops the last element
while building the command tree, so the caller observes the array without
its last element; the bound update shifts off the first element while
destructuring (and, when a remaining path exists, the command build then
pops the last element of the remainder), so the caller observes the tail
of the array with its own last element dropped whenever a remainder
existed.  In both cases the observed contents differ from what was
passed. -/
theorem c10_pathArrayMutation (ks : List Value) (hne : ks ≠ []) :
    (∀ S type value r pa,
        updateSilent S type (.arr ks) value = .ok (r, pa)
          → pa = .arr ks.dropLast ∧ pa ≠ .arr ks)
    ∧ (∀ inst type value ret inst2 pa,
        updateState inst type (.arr ks) value = .ok (ret, inst2, pa)
          → pa = .arr ks.tail.dropLast ∧ pa ≠ .arr ks) := by
  have hlen : 0 < ks.length := List.length_pos.mpr hne
  constructor
  · intro S type value r pa h
    have hpa : pa = .arr ks.dropLast := update_pathAfter_arr S type ks value r pa h
    refine ⟨hpa, ?_⟩
    subst hpa
    intro hcontra
    have h1 : ks.dropLast = ks := by injection hcontra
    have h2 := congrArg List.length h1
    rw [List.length_dropLast] at h2
    omega
  · intro inst type value ret inst2 pa h
    have hpa : pa = .arr ks.tail.dropLast := by
      unfold updateState at h
      simp only [updateNextState] at h
      rw [if_neg (by simp [isPlainObject])] at h
      obtain ⟨k, rest, rfl⟩ : ∃ k rest, ks = k :: rest := by
        cases ks with
        | nil => exact absurd rfl hne
        | cons k rest => exact ⟨k, rest, rfl⟩
      cases rest with
      | nil =>
          have hd : getDestructPath (.arr [k]) = .ok (keyStr k, .vnull) := rfl
          simp only [updateNextStateSingle, hd] at h
          by_cases hfast : (isNullV Value.vnull && (type == "set")) = true
          · rw [if_pos hfast] at h
            simp only [Except.ok.injEq, Prod.mk.injEq] at h
            rw [← h.2.2]
            rfl
          · rw [if_neg hfast] at h
            cases hup : updateHelper.update
                (lookupD (if hasKey ([] : Obj) (keyStr k) then
                    setKey (((getCachedLastState inst).1).getD (getCachedLastState inst).2.state)
                      (keyStr k)
                      (lookupD ([] : Obj) (keyStr k))
                  else (((getCachedLastState inst).1).getD (getCachedLastState inst).2.state))
                  (keyStr k))
                type Value.vnull value with
            | error e => rw [hup] at h; cases h
            | ok p =>
                obtain ⟨nv, ra⟩ := p
                rw [hup] at h
                simp only [Except.ok.injEq, Prod.mk.injEq] at h
                rw [← h.2.2]
                rfl
      | cons t ts =>
          have hd : getDestructPath (.arr (k :: t :: ts))
              = .ok (keyStr k, .arr (t :: ts)) := rfl
          simp only [updateNextStateSingle, hd] at h
          rw [if_neg (by simp [isNullV])] at h
          cases hup : updateHelper.update
              (lookupD (if hasKey ([] : Obj) (keyStr k) then
                  setKey (((getCachedLastState inst).1).getD (getCachedLastState inst).2.state)
                    (keyStr k)
                    (lookupD ([] : Obj) (keyStr k))
                else (((getCachedLastState inst).1).getD (getCachedLastState inst).2.state))
                (keyStr k))
              type (.arr (t :: ts)) value with
          | error e => rw [hup] at h; cases h
          | ok p =>
              obtain ⟨nv, ra⟩ := p
              have hra : ra = .arr (t :: ts).dropLast :=
                update_pathAfter_arr _ type (t :: ts) value nv ra hup
              rw [hup] at h
              simp only [Except.ok.injEq, Prod.mk.injEq] at h
              rw [← h.2.2]
              exact hra
    refine ⟨hpa, ?_⟩
    subst hpa
    intro hcontra
    have h1 : ks.tail.dropLast = ks := by injection hcontra
    have h2 := congrArg List.length h1
    rw [List.length_dropLast, List.length_tail] at h2
    omega

/-- C10 (witness): the amended claim at a concrete two-key array path:
the pure update leaves the caller holding the array without its last
element, the bound update leaves the caller holding the empty array, and
both differ from the array passed in. -/
theorem c10_pathArrayMutation_witness :
    ((.arr [.str "a"] : Value) = .arr ([.str "a", .str "b"] : List Value).dropLast
      ∧ (.arr [.str "a"] : Value) ≠ .arr [.str "a", .str "b"])
    ∧ ((.arr [] : Value) = .arr ([.str "a", .str "b"] : List Value).tail.dropLast
      ∧ (.arr [] : Value) ≠ .arr [.str "a", .str "b"]) := by
  have h := c10_pathArrayMutation [.str "a", .str "b"] (by simp)
  exact ⟨h.1 (.obj [("a", .obj [("b", .num 0)])]) "set" (.num 1)
      (.obj [("a", .obj [("b", .num 1)])]) (.arr [.str "a"]) rfl,
    h.2 ⟨[("a", .obj [("b", .num 0)])], none, none⟩ "set" (.num 1)
      (.obj [("b", .num 1)])
      ⟨[("a", .obj [("b", .num 0)])], some [[("a", .obj [("b", .num 1)])]], none⟩
      (.arr []) rfl⟩

/-
  Claim C4.
-/

/-- C4 (confirmed): within a single multi-path bound update call, when two
per-update paths resolve to the same top-level property, the later update
is computed from the earlier update's already-computed partial result for
that property (the earlier write is rolled back into the working last
state before the later helper application), so the final fragment for the
property is the sequential composition of the two per-path updates through
the pure apply layer, and the call returns that composed value. -/
theorem c4_collisionRollback (state0 : Obj) (type s1 s2 prop : String)
    (r1 r2 v1 v2 w1 w2 : Value)
    (h1p : getDestructPath (.str s1) = .ok (prop, r1))
    (h2p : getDestructPath (.str s2) = .ok (prop, r2))
    (h1 : (updateHelper.update (lookupD state0 prop) type r1 v1).map Prod.fst = .ok w1)
    (h2 : (updateHelper.update w1 type r2 v2).map Prod.fst = .ok w2) :
    (updateState ⟨state0, none, none⟩ type (.obj [(s1, v1), (s2, v2)]) .vundefined).map
        (fun r => r.1) = .ok w2 := by
  have e1 : ∃ ls2 pa, updateNextStateSingle type (.str s1) v1 [] state0
      = .ok (setKey [] prop w1, ls2, pa) := by
    apply updateNextStateSingle_composes type (.str s1) v1 [] state0 prop r1 w1 h1p
    simpa [hasKey] using h1
  obtain ⟨lsA, paA, hA⟩ := e1
  have e2 : ∃ ls2 pa, updateNextStateSingle type (.str s2) v2 (setKey [] prop w1) lsA
      = .ok (setKey (setKey [] prop w1) prop w2, ls2, pa) := by
    apply updateNextStateSingle_composes type (.str s2) v2 _ lsA prop r2 w2 h2p
    have hbase : lookupD
        (if hasKey (setKey ([] : Obj) prop w1) prop then
          setKey lsA prop (lookupD (setKey ([] : Obj) prop w1) prop)
        else lsA) prop = w1 := by
      have hk : hasKey (setKey ([] : Obj) prop w1) prop = true := by
        simp [setKey, hasKey]
      rw [if_pos hk]
      have hv : lookupD (setKey ([] : Obj) prop w1) prop = w1 := lookupD_setKey_self _ _ _
      rw [hv, lookupD_setKey_self]
    rw [hbase]
    exact h2
  obtain ⟨lsB, paB, hB⟩ := e2
  have hfold : setKey (setKey ([] : Obj) prop w1) prop w2 = [(prop, w2)] := by
    simp [setKey]
  have hone : setKey ([] : Obj) prop w1 = [(prop, w1)] := by simp [setKey]
  rw [hfold, hone] at hB
  rw [hone] at hA
  simp only [updateState, getCachedLastState, updateNextState, isPlainObject,
    updateNextStateList, hA, hB, setState, Option.getD, if_true, List.nil_append]
  rfl

/-- C4 (witness): the collision at the concrete call with paths a.x and
a.y on a host whose property a is the empty object: both updates land, and
the returned value for a carries x = 1 and y = 2. -/
theorem c4_collisionRollback_witness :
    (updateState ⟨[("a", .obj [])], none, none⟩ "set"
        (.obj [("a.x", .num 1), ("a.y", .num 2)]) .vundefined).map (fun r => r.1)
      = .ok (.obj [("x", .num 1), ("y", .num 2)]) := by
  exact c4_collisionRollback [("a", .obj [])] "set" "a.x" "a.y" "a"
    (.arr [.str "x"]) (.arr [.str "y"]) (.num 1) (.num 2)
    (.obj [("x", .num 1)]) (.obj [("x", .num 1), ("y", .num 2)])
    rfl rfl rfl rfl

/-
  Claim C7.
-/

/-- C7 (counterexample): the claim says a top-level value that is itself a
plain mapping is recursively expanded into further sub-updates.  On a host
whose property a holds x = 0 and y = 5, the bound set update with the
mapping from a to the plain mapping x = 1 assigns that mapping literally:
the result for a is exactly the mapping x = 1 (y is gone), whereas the
expansion the claim describes is the sub-update a.x = 1, whose result for
a keeps y = 5.  The two results differ. -/
theorem c7_counterexample :
    (updateState ⟨[("a", .obj [("x", .num 0), ("y", .num 5)])], none, none⟩ "set"
        (.obj [("a", .obj [("x", .num 1)])]) .vundefined).map (fun r => r.1)
      = .ok (.obj [("x", .num 1)])
    ∧ (updateState ⟨[("a", .obj [("x", .num 0), ("y", .num 5)])], none, none⟩ "set"
        (.str "a.x") (.num 1)).map (fun r => r.1)
      = .ok (.obj [("x", .num 1), ("y", .num 5)])
    ∧ (Value.obj [("x", .num 1)]) ≠ .obj [("x", .num 1), ("y", .num 5)] := by
  exact ⟨rfl, rfl, by simp⟩

/-- C7 (amended): in a bound multi-path update, expansion is driven only
by the path argument being a plain mapping: each top-level key becomes one
independent single-path update whose value is taken literally, whatever
its shape — a plain-mapping value is never expanded into sub-updates.  In
particular, for single-key set paths every entry's value, plain mapping or
not, appears verbatim in the committed fragment. -/
theorem c7_literalValues (state0 : Obj) (entries : List (String × Value))
    (hkeys : ∀ kv ∈ entries, getPathArray (.str kv.1) = .arr [.str kv.1])
    (hnodup : (entries.map Prod.fst).Nodup) :
    ∃ ret pa,
      updateState ⟨state0, none, none⟩ "set" (.obj entries) .vundefined
          = .ok (ret,
                 ⟨state0,
                  some [entries.foldl (fun acc kv => setKey acc kv.1 kv.2) []],
                  none⟩,
                 pa)
      ∧ ∀ kv ∈ entries,
          lookup (entries.foldl (fun acc kv => setKey acc kv.1 kv.2) []) kv.1
            = some kv.2 := by
  have hlist := updateNextStateList_fast entries [] state0 hkeys
  have hcall : updateState ⟨state0, none, none⟩ "set" (.obj entries) .vundefined
      = .ok ((match entries.foldl (fun acc kv => setKey acc kv.1 kv.2) [] with
              | [kv] => kv.2
              | _ => Value.obj (entries.foldl (fun acc kv => setKey acc kv.1 kv.2) [])),
             ⟨state0, some [entries.foldl (fun acc kv => setKey acc kv.1 kv.2) []], none⟩,
             .obj entries) := by
    simp only [updateState, getCachedLastState, updateNextState, isPlainObject,
      hlist, setState, Option.getD, if_true, List.nil_append]
  refine ⟨_, _, hcall, ?_⟩
  intro kv hkv
  exact lookup_foldl_setKey_mem entries [] kv.1 kv.2 hnodup (by simpa using hkv)

/-- C7 (witness): the amended claim at a concrete two-entry mapping whose
first value is itself a plain mapping: the committed fragment carries both
values literally. -/
theorem c7_literalValues_witness :
    (updateState ⟨[("a", .num 0)], none, none⟩ "set"
        (.obj [("a", .obj [("z", .num 9)]), ("b", .num 2)]) .vundefined).map
      (fun r => r.2.1.pendingQueue)
      = .ok (some [[("a", .obj [("z", .num 9)]), ("b", .num 2)]]) := by
  obtain ⟨ret, pa, h, hl⟩ := c7_literalValues [("a", .num 0)]
    [("a", .obj [("z", .num 9)]), ("b", .num 2)]
    (by
      intro kv hkv
      simp only [List.mem_cons, List.mem_singleton] at hkv
      rcases hkv with rfl | hkv
      · rfl
      · rcases hkv with rfl | hkv
        · rfl
        · cases hkv)
    (by simp)
  rw [h]
  rfl

/-
  Claim C2.
-/

/-- C2 (confirmed): starting a tick with no pending mutation and property
a holding an object, a first bound call setting a.x to 1 schedules the
fragment mapping a to that object with x set to 1; a second bound call in
the same tick, before any commit, consults the pending-state cache (seeded
from the committed state merged with the popped pending fragment) rather
than the stale committed state, so the value it computes and commits for a
carries both x = 1 and y = 2. -/
theorem c2_pendingStateCache (state0 : Obj) (fs : List (String × Value))
    (h : lookup state0 "a" = some (.obj fs)) :
    updateState ⟨state0, none, none⟩ "set" (.str "a.x") (.num 1)
        = .ok (.obj (setKey fs "x" (.num 1)),
               ⟨state0, some [[("a", .obj (setKey fs "x" (.num 1)))]], none⟩,
               .str "a.x")
    ∧ updateState ⟨state0, some [[("a", .obj (setKey fs "x" (.num 1)))]], none⟩ "set"
          (.str "a.y") (.num 2)
        = .ok (.obj (setKey (setKey fs "x" (.num 1)) "y" (.num 2)),
               ⟨state0,
                some [[("a", .obj (setKey (setKey fs "x" (.num 1)) "y" (.num 2)))]],
                some (setKey (objAssign ([] : Obj) state0) "a"
                    (.obj (setKey fs "x" (.num 1))))⟩,
               .str "a.y")
    ∧ lookup (setKey (setKey fs "x" (.num 1)) "y" (.num 2)) "x" = some (.num 1)
    ∧ lookup (setKey (setKey fs "x" (.num 1)) "y" (.num 2)) "y" = some (.num 2) := by
  have hd1 : getDestructPath (.str "a.x") = .ok ("a", .arr [.str "x"]) := rfl
  have hd2 : getDestructPath (.str "a.y") = .ok ("a", .arr [.str "y"]) := rfl
  have hu1 : updateHelper.update (.obj fs) "set" (.arr [.str "x"]) (.num 1)
      = .ok (.obj (setKey fs "x" (.num 1)), .arr []) := rfl
  have hu2 : updateHelper.update (.obj (setKey fs "x" (.num 1))) "set"
        (.arr [.str "y"]) (.num 2)
      = .ok (.obj (setKey (setKey fs "x" (.num 1)) "y" (.num 2)), .arr []) := rfl
  have hs1 : updateNextStateSingle "set" (.str "a.x") (.num 1) [] state0
      = .ok ([("a", .obj (setKey fs "x" (.num 1)))], state0, .str "a.x") := by
    simp only [updateNextStateSingle, hd1]
    rw [if_neg (by simp [isNullV])]
    have hbase : lookupD
        (if hasKey ([] : Obj) "a" then setKey state0 "a" (lookupD [] "a") else state0)
        "a" = .obj fs := by
      simp [hasKey, lookupD, h]
    rw [hbase, hu1]
    rfl
  have hns1 : updateNextState "set" (.str "a.x") (.num 1) [] state0
      = .ok ([("a", .obj (setKey fs "x" (.num 1)))], state0, .str "a.x") := hs1
  have hcall1 : updateState ⟨state0, none, none⟩ "set" (.str "a.x") (.num 1)
      = .ok (.obj (setKey fs "x" (.num 1)),
             ⟨state0, some [[("a", .obj (setKey fs "x" (.num 1)))]], none⟩,
             .str "a.x") := by
    simp only [updateState, getCachedLastState, Option.getD, hns1, setState,
      List.nil_append]
  have hcache : getCachedLastState
        ⟨state0, some [[("a", .obj (setKey fs "x" (.num 1)))]], none⟩
      = (some (setKey (objAssign ([] : Obj) state0) "a" (.obj (setKey fs "x" (.num 1)))),
         ⟨state0, some [],
          some (setKey (objAssign ([] : Obj) state0) "a"
            (.obj (setKey fs "x" (.num 1))))⟩) := rfl
  have hs2 : updateNextStateSingle "set" (.str "a.y") (.num 2) []
        (setKey (objAssign ([] : Obj) state0) "a" (.obj (setKey fs "x" (.num 1))))
      = .ok ([("a", .obj (setKey (setKey fs "x" (.num 1)) "y" (.num 2)))],
             setKey (objAssign ([] : Obj) state0) "a" (.obj (setKey fs "x" (.num 1))),
             .str "a.y") := by
    simp only [updateNextStateSingle, hd2]
    rw [if_neg (by simp [isNullV])]
    have hbase : lookupD
        (if hasKey ([] : Obj) "a" then
          setKey (setKey (objAssign ([] : Obj) state0) "a"
              (.obj (setKey fs "x" (.num 1)))) "a" (lookupD [] "a")
        else setKey (objAssign ([] : Obj) state0) "a" (.obj (setKey fs "x" (.num 1))))
        "a" = .obj (setKey fs "x" (.num 1)) := by
      have hk : hasKey ([] : Obj) "a" = false := rfl
      rw [hk]
      simp only [Bool.false_eq_true, if_false]
      exact lookupD_setKey_self _ _ _
    rw [hbase, hu2]
    rfl
  have hns2 : updateNextState "set" (.str "a.y") (.num 2) []
        (setKey (objAssign ([] : Obj) state0) "a" (.obj (setKey fs "x" (.num 1))))
      = .ok ([("a", .obj (setKey (setKey fs "x" (.num 1)) "y" (.num 2)))],
             setKey (objAssign ([] : Obj) state0) "a" (.obj (setKey fs "x" (.num 1))),
             .str "a.y") := hs2
  have hcall2 : updateState ⟨state0, some [[("a", .obj (setKey fs "x" (.num 1)))]], none⟩
        "set" (.str "a.y") (.num 2)
      = .ok (.obj (setKey (setKey fs "x" (.num 1)) "y" (.num 2)),
             ⟨state0,
              some [[("a", .obj (setKey (setKey fs "x" (.num 1)) "y" (.num 2)))]],
              some (setKey (objAssign ([] : Obj) state0) "a"
                  (.obj (setKey fs "x" (.num 1))))⟩,
             .str "a.y") := by
    simp only [updateState, hcache, Option.getD, hns2, setState, List.nil_append]
  refine ⟨hcall1, hcall2, ?_, ?_⟩
  · rw [lookup_setKey_ne _ "y" "x" _ (by decide), lookup_setKey_self]
  · rw [lookup_setKey_self]

/-- C2 (witness): the two same-tick calls at the concrete committed state
where a holds x = 0: the second call returns the object carrying both
x = 1 and y = 2. -/
theorem c2_pendingStateCache_witness :
    ((updateState ⟨[("a", .obj [("x", .num 0)])], none, none⟩ "set"
        (.str "a.x") (.num 1)).bind
      (fun r => updateState r.2.1 "set" (.str "a.y") (.num 2))).map (fun r => r.1)
      = .ok (.obj [("x", .num 1), ("y", .num 2)]) := by
  obtain ⟨hc1, hc2, _, _⟩ :=
    c2_pendingStateCache [("a", .obj [("x", .num 0)])] [("x", .num 0)] rfl
  rw [hc1]
  simp only [Except.bind]
  rw [hc2]
  rfl

end ReactUpdate
